import Mathlib

/-!
Verification development for the sandstone document service.

The development shallowly embeds the collaboration and mutation plane:
the text-diff utility (`src/lib/textDiff.ts`), the change-application
engine (`src/app/api/documents/[id]/changes/route.ts`, with its error
library `lib/errors.ts` = `src/unnamed/part_005` and middleware
`lib/api-middleware.ts` = `src/unnamed/part_004`), the socket
collaboration server, and the collaboration client.

JavaScript strings are modelled as lists of UTF-16 code units
(`JsStr := List Nat`): `String.prototype.length`, `indexOf`, `substring`
and friends all count code units in JavaScript, so list indices and
lengths in the model coincide with the indices the source computes.
-/

namespace Sandstone

/-- A JavaScript string: a sequence of UTF-16 code units. -/
abbrev JsStr := List Nat

/-- Convert a Lean string literal (BMP characters only in our inputs)
to its UTF-16 code-unit sequence. For characters below 0x10000 the
single code unit equals the code point. -/
def jstr (s : String) : JsStr :=
  s.data.map Char.toNat

/-- The JavaScript `\s` character class (whitespace code units). -/
def isWs (u : Nat) : Bool :=
  u = 9 || u = 10 || u = 11 || u = 12 || u = 13 || u = 32 ||
  u = 0xa0 || u = 0x1680 || (0x2000 ≤ u && u ≤ 0x200a) ||
  u = 0x2028 || u = 0x2029 || u = 0x202f || u = 0x205f ||
  u = 0x3000 || u = 0xfeff

/-- Is `pat` a prefix of `s`? (Boolean, code-unit-wise.) -/
def isPre : JsStr → JsStr → Bool
  | [], _ => true
  | _ :: _, [] => false
  | a :: as, b :: bs => a = b && isPre as bs

/-- First index at which `pat` occurs in `s`, if any.
Mirrors `String.prototype.indexOf` (which returns the code-unit index
of the leftmost occurrence, and in particular `0` for the empty
pattern). -/
def firstIdx (s pat : JsStr) : Option Nat :=
  if isPre pat s then some 0
  else
    match s with
    | [] => none
    | _ :: t => (firstIdx t pat).map (· + 1)

/-- `String.prototype.indexOf`: code-unit index of the first
occurrence, `-1` when absent. -/
def jsIndexOf (s pat : JsStr) : Int :=
  match firstIdx s pat with
  | some n => (n : Int)
  | none => -1

/-- ECMA-262 `GetSubstitution` for a string (non-regex) pattern:
expand the replacement template `rep` given the text before the match
(`pre`), the matched substring (`matched`) and the text after it
(`post`). Code unit 36 is `$`, 38 is `&`, 96 is the grave accent, 39
is the apostrophe: `$$` yields `$`, `$&` the match, dollar-grave the
preceding text, dollar-apostrophe the following text. With a string
pattern there are no capture groups, so `$n` and `$<` stay literal
(the final catch-alls). -/
def getSubstitution (pre matched post : JsStr) : JsStr → JsStr
  | [] => []
  | 36 :: 36 :: rest => 36 :: getSubstitution pre matched post rest
  | 36 :: 38 :: rest => matched ++ getSubstitution pre matched post rest
  | 36 :: 96 :: rest => pre ++ getSubstitution pre matched post rest
  | 36 :: 39 :: rest => post ++ getSubstitution pre matched post rest
  | 36 :: u :: rest => 36 :: getSubstitution pre matched post (u :: rest)
  | u :: rest => u :: getSubstitution pre matched post rest

/-- `String.prototype.replace` with a plain-string pattern: replace
the first occurrence of `pat` by the `GetSubstitution` expansion of
`rep` (the replacement is user input and may contain `$`-patterns);
return `s` unchanged when `pat` does not occur. -/
def replaceFirst (s pat rep : JsStr) : JsStr :=
  match firstIdx s pat with
  | none => s
  | some i =>
    s.take i ++ getSubstitution (s.take i) pat (s.drop (i + pat.length)) rep ++
      s.drop (i + pat.length)

/-- Length of the longest common prefix of two lists; this is exactly
the value of `startIndex` after the scanning loop in
`findTextChanges` (over code units) and `findWordLevelChanges` (over
tokens): the loop stops at `minLength`, i.e. when either list is
exhausted. -/
def commonPrefixLen {α : Type} [DecidableEq α] : List α → List α → Nat
  | [], _ => 0
  | _ :: _, [] => 0
  | a :: as, b :: bs => if a = b then commonPrefixLen as bs + 1 else 0

/-- The `endIndex` loop of `findTextChanges` /
`findWordLevelChanges`: starting from `e` (initially `minLength`),
decrement while `e > s` and the elements of `o` and `n` at `e - 1`
agree. -/
def endScan {α : Type} [DecidableEq α] (o n : List α) (s : Nat) : Nat → Nat
  | 0 => 0
  | e + 1 => if s ≤ e ∧ o.get? e = n.get? e then endScan o n s e else e + 1

/-- A diff record `{textToReplace, newText, position}` from
`src/lib/textDiff.ts`. `position` is an `Int` because the change
engine's records use `-1` for "not found". -/
structure TextChange where
  textToReplace : JsStr
  newText : JsStr
  position : Int
  deriving DecidableEq, Repr

/-- `findTextChanges` (`src/lib/textDiff.ts` lines 8-54):
character-level common prefix/suffix scan; emits one op for the
differing middle, nothing when the middles coincide. -/
def findTextChanges (oldText newText : JsStr) : List TextChange :=
  if oldText = newText then []
  else
    let minLength := min oldText.length newText.length
    let startIndex := commonPrefixLen oldText newText
    let endIndex := endScan oldText newText startIndex minLength
    let oldChanged := (oldText.drop startIndex).take (endIndex - startIndex)
    let newChanged := (newText.drop startIndex).take (endIndex - startIndex)
    if oldChanged ≠ newChanged then
      [⟨oldChanged, newChanged, (startIndex : Int)⟩]
    else []

/-- Dropping a prefix never lengthens a list. -/
theorem length_dropWhile_le (p : Nat → Bool) (l : List Nat) :
    (l.dropWhile p).length ≤ l.length := by
  induction l with
  | nil => simp
  | cons a as ih =>
    by_cases hp : p a = true
    · rw [List.dropWhile_cons_of_pos hp]
      exact Nat.le_succ_of_le ih
    · rw [List.dropWhile_cons_of_neg hp]

/-- The head surviving `dropWhile p` fails `p`. -/
theorem dropWhile_head_false (p : Nat → Bool) :
    ∀ (l : List Nat) (a : Nat) (as : List Nat),
      l.dropWhile p = a :: as → p a = false := by
  intro l
  induction l with
  | nil => intro a as h; simp at h
  | cons b bs ih =>
    intro a as h
    by_cases hpb : p b = true
    · rw [List.dropWhile_cons_of_pos hpb] at h
      exact ih a as h
    · rw [List.dropWhile_cons_of_neg hpb] at h
      cases h
      simpa using hpb

/-- Fuel-indexed worker for `splitWs`; the fuel strictly dominates the
input length, so the zero case is never reached. -/
def splitWsAux : Nat → JsStr → List JsStr
  | 0, _ => []
  | fuel + 1, l =>
    if l.dropWhile (fun u => !isWs u) = [] then
      [l.takeWhile (fun u => !isWs u)]
    else
      l.takeWhile (fun u => !isWs u) ::
      (l.dropWhile (fun u => !isWs u)).takeWhile isWs ::
      splitWsAux fuel ((l.dropWhile (fun u => !isWs u)).dropWhile isWs)

/-- `oldText.split(/(\s+)/)`: split into maximal non-whitespace pieces
and whitespace runs, keeping the separators as tokens (pieces at the
boundaries may be empty, exactly as in JavaScript). -/
def splitWs (l : JsStr) : List JsStr :=
  splitWsAux (l.length + 1) l

/-- `findWordLevelChanges` (`src/lib/textDiff.ts` lines 239-288):
token-level common prefix/suffix scan over `split(/(\s+)/)` tokens;
emits one op for the joined differing middles, with `position` the sum
of the code-unit lengths of the prefix tokens. -/
def findWordLevelChanges (oldText newText : JsStr) : List TextChange :=
  let oldWords := splitWs oldText
  let newWords := splitWs newText
  let minLength := min oldWords.length newWords.length
  let startIndex := commonPrefixLen oldWords newWords
  let endIndex := endScan oldWords newWords startIndex minLength
  let oldChangedWords := (oldWords.drop startIndex).take (endIndex - startIndex)
  let newChangedWords := (newWords.drop startIndex).take (endIndex - startIndex)
  if oldChangedWords.length > 0 ∨ newChangedWords.length > 0 then
    let position := ((oldWords.take startIndex).map List.length).sum
    [⟨oldChangedWords.flatten, newChangedWords.flatten, (position : Int)⟩]
  else []

/-- `generateChangeRequests` (`src/lib/textDiff.ts` lines 207-236):
word-level first, then character-level, then whole-text replacement. -/
def generateChangeRequests (oldText newText : JsStr) : List TextChange :=
  if oldText = newText then []
  else
    let wordChanges := findWordLevelChanges oldText newText
    if wordChanges.length > 0 then wordChanges
    else
      let charChanges := findTextChanges oldText newText
      if charChanges.length > 0 then charChanges
      else [⟨oldText, newText, 0⟩]

/-- Apply a list of diff ops left-to-right, replacing for each op the
first occurrence of its `textToReplace` (the application semantics the
spec attributes to the change engine). -/
def applyOpsFirstOcc (s : JsStr) (ops : List TextChange) : JsStr :=
  ops.foldl (fun acc op => replaceFirst acc op.textToReplace op.newText) s

/-! ## Change Engine (`src/app/api/documents/[id]/changes/route.ts`) -/

/-- One `{textToReplace, newText}` op of a change request. -/
structure SingleChangeRequest where
  textToReplace : JsStr
  newText : JsStr
  deriving DecidableEq, Repr

/-- The two mutually exclusive request shapes accepted by
`POST /api/documents/[id]/changes` (discriminated by the presence of
the `changes` array, `detectChangeRequestType`). -/
inductive ChangeRequest where
  | single (c : SingleChangeRequest)
  | multiple (changes : List SingleChangeRequest)
  deriving DecidableEq, Repr

/-- A per-op outcome record as built by the route handler. -/
structure AppliedChange where
  textReplaced : JsStr
  newText : JsStr
  position : Int
  applied : Bool
  deriving DecidableEq, Repr

/-- The comparator `(a, b) => b.position - a.position` induces this
relation: `a` sorts no later than `b` iff `b.position ≤ a.position`
(descending). JavaScript `Array.prototype.sort` is stable, and the
stable descending permutation is unique, so insertion sort with this
relation computes exactly what the source computes. -/
def posDesc (a b : SingleChangeRequest × Int) : Prop := b.2 ≤ a.2

instance : DecidableRel posDesc := fun a b => inferInstanceAs (Decidable (b.2 ≤ a.2))

instance : IsTotal (SingleChangeRequest × Int) posDesc := ⟨fun a b => le_total b.2 a.2⟩

instance : IsTrans (SingleChangeRequest × Int) posDesc :=
  ⟨fun _ _ _ h1 h2 => le_trans h2 h1⟩

/-- The `changes.map(...)` step of `applyMultipleChanges`: annotate
each op with its first-occurrence position in the original content. -/
def changesWithPositions (content : JsStr) (changes : List SingleChangeRequest) :
    List (SingleChangeRequest × Int) :=
  changes.map (fun c => (c, jsIndexOf content c.textToReplace))

/-- The `.sort((a, b) => b.position - a.position)` step: stable sort
by original position, descending. -/
def sortedChanges (content : JsStr) (changes : List SingleChangeRequest) :
    List (SingleChangeRequest × Int) :=
  List.insertionSort posDesc (changesWithPositions content changes)

/-- The main loop of `applyMultipleChanges`: walk the (sorted) list
against a mutable working copy, locating each op's `textToReplace` by
first-occurrence search in the working copy's current state. -/
def walkChanges : List (SingleChangeRequest × Int) → JsStr × List AppliedChange →
    JsStr × List AppliedChange
  | [], acc => acc
  | cp :: rest, acc =>
    let position := jsIndexOf acc.1 cp.1.textToReplace
    let applied := position ≠ -1
    walkChanges rest
      ((if applied then replaceFirst acc.1 cp.1.textToReplace cp.1.newText else acc.1),
       acc.2 ++ [⟨cp.1.textToReplace, cp.1.newText, position, decide applied⟩])

/-- `applyMultipleChanges` (route.ts lines 86-134). -/
def applyMultipleChanges (content : JsStr) (changes : List SingleChangeRequest) :
    JsStr × List AppliedChange :=
  walkChanges (sortedChanges content changes) (content, ([] : List AppliedChange))

/-- `permission_level` values of `document_collaborators`. -/
inductive PermissionLevel where
  | owner
  | editor
  | viewer
  | commenter
  deriving DecidableEq, Repr

/-- A `document_collaborators` row for the target document. -/
structure CollaboratorRow where
  userId : Nat
  permissionLevel : PermissionLevel
  isActive : Bool
  deriving DecidableEq, Repr

/-- The columns of the target `documents` row the handler reads and
writes. -/
structure DocumentRow where
  ownerId : Nat
  isPublic : Bool
  content : JsStr
  contentVersion : Nat
  deriving DecidableEq, Repr

/-- A `document_operations` row (the handler always inserts kind
`replace`). -/
structure OperationRow where
  position : Int
  length : Nat
  content : JsStr
  userId : Nat
  sequenceNumber : Nat
  deriving DecidableEq, Repr

/-- A `document_analytics` row (the metadata the handler records). -/
structure AnalyticsRow where
  userId : Nat
  requestTypeSingle : Bool
  totalChanges : Nat
  appliedChanges : Nat
  perOp : List AppliedChange
  deriving DecidableEq, Repr

/-- The database state the change route reads and writes, restricted
to the target document id: its `documents` row (`none` when the id is
absent), its collaborator bindings, its operation log and its
analytics log. -/
structure EngineState where
  doc : Option DocumentRow
  collaborators : List CollaboratorRow
  operations : List OperationRow
  analytics : List AnalyticsRow
  deriving DecidableEq, Repr

/-- The `AppError` subclasses of `lib/errors.ts`
(`src/unnamed/part_005`, lines 30-116), one constructor per class. -/
inductive ApiError where
  | badRequest
  | unauthorized
  | forbidden
  | notFound
  | conflict
  | validation
  | tooManyRequests
  | internal
  | serviceUnavailable
  deriving DecidableEq, Repr

/-- The `statusCode` each `AppError` subclass fixes in its constructor
(`src/unnamed/part_005`). `withErrorHandlingAppRouter`
(`src/unnamed/part_004`, lines 51-80) catches a thrown error, passes
it through `handleApiError` — which returns `AppError` instances
unchanged — and responds with this status. -/
def statusOf : ApiError → Nat
  | .badRequest => 400
  | .unauthorized => 401
  | .forbidden => 403
  | .notFound => 404
  | .conflict => 409
  | .validation => 422
  | .tooManyRequests => 429
  | .internal => 500
  | .serviceUnavailable => 503

/-- `handleDatabaseError` (`src/unnamed/part_005`, lines 237-270)
applied to a thrown `AppError`: the object's `code` field is a number,
so the `typeof error.code === "string"` PostgreSQL-code test fails and
the function returns `InternalServerError` (500). -/
def handleDatabaseErrorOnAppError (_ : ApiError) : ApiError :=
  .internal

/-- The route's own catch block (route.ts lines 367-376):
`NotFoundError`, `ForbiddenError` and `BadRequestError` instances are
rethrown unchanged; every other thrown error — in this model only
`ValidationError` from the string validators — goes through
`handleDatabaseError` and becomes a 500. -/
def routeCatch : ApiError → ApiError
  | .notFound => .notFound
  | .forbidden => .forbidden
  | .badRequest => .badRequest
  | e => handleDatabaseErrorOnAppError e

/-- `validateString(value, fieldName, 0, 1000000)` on a string value
(`src/unnamed/part_005`, lines 138-167): `validateRequired` throws on
the empty string even though `minLength` is 0, and the `maxLength`
test throws when `value.length` (UTF-16 code units) exceeds 10\^6. -/
def validateChangeString (s : JsStr) : Bool :=
  !s.isEmpty && s.length ≤ 1000000

/-- `validateSingleChangeRequest` (route.ts lines 30-40) validates
both strings; `validateMultipleChangeRequest` (lines 43-68) runs the
same checks per op through `validateArray`, which re-wraps each
failure as a `ValidationError`. Either way a failure is a
`ValidationError`. -/
def validChangeStrings (c : SingleChangeRequest) : Bool :=
  validateChangeString c.textToReplace && validateChangeString c.newText

instance {α β : Type} [DecidableEq α] [DecidableEq β] : DecidableEq (Except α β) := fun a b =>
  match a, b with
  | .ok x, .ok y =>
    if h : x = y then isTrue (by rw [h]) else isFalse (by intro he; cases he; exact h rfl)
  | .ok _, .error _ => isFalse (by intro he; cases he)
  | .error _, .ok _ => isFalse (by intro he; cases he)
  | .error x, .error y =>
    if h : x = y then isTrue (by rw [h]) else isFalse (by intro he; cases he; exact h rfl)

/-- The success payload of the changes route. -/
structure ChangesResponse where
  documentText : JsStr
  requestTypeSingle : Bool
  totalChanges : Nat
  appliedChanges : Nat
  perOp : List AppliedChange
  documentVersion : Nat
  deriving DecidableEq, Repr

/-- `SELECT COALESCE(MAX(sequence_number), 0)` over the document's
operation rows. -/
def maxSeq (ops : List OperationRow) : Nat :=
  (ops.map (·.sequenceNumber)).foldl max 0

/-- The per-applied-op `INSERT INTO document_operations` loop: each
insert recomputes `COALESCE(MAX(sequence_number), 0) + 1` against the
rows present at that moment. -/
def insertOps (u : Nat) (ops : List OperationRow) (applied : List AppliedChange) :
    List OperationRow :=
  applied.foldl
    (fun acc ch =>
      if ch.applied then
        acc ++ [⟨ch.position, ch.textReplaced.length, ch.newText, u, maxSeq acc + 1⟩]
      else acc)
    ops

/-- The success tail of the route: `UPDATE documents ... content_version
= content_version + 1`, the operation-row inserts, the analytics
insert, and the response. -/
def commitChanges (st : EngineState) (u : Nat) (d : DocumentRow)
    (requestTypeSingle : Bool) (updatedContent : JsStr)
    (appliedChanges : List AppliedChange) : EngineState × Except ApiError ChangesResponse :=
  let newDoc : DocumentRow :=
    { d with content := updatedContent, contentVersion := d.contentVersion + 1 }
  let appliedCount := (appliedChanges.filter (·.applied)).length
  ({ st with
      doc := some newDoc
      operations := insertOps u st.operations appliedChanges
      analytics := st.analytics ++
        [⟨u, requestTypeSingle, appliedChanges.length, appliedCount, appliedChanges⟩] },
   .ok ⟨updatedContent, requestTypeSingle, appliedChanges.length, appliedCount,
        appliedChanges, newDoc.contentVersion⟩)

/-- The `document_collaborators` permission query: active rows of the
caller, in table order (`permissionResult.rows`). -/
def permResultRows (st : EngineState) (u : Nat) : List CollaboratorRow :=
  st.collaborators.filter (fun c => c.userId == u && c.isActive)

/-- Does the head permission row carry `owner` or `editor`? -/
def headIsEditor (rows : List CollaboratorRow) : Bool :=
  match rows.head? with
  | some c => c.permissionLevel == .owner || c.permissionLevel == .editor
  | none => false

/-- The request-processing tail of the route, reached once the access
query and both permission checks have passed: the per-shape string
validators (which in the source run inside each branch, after the
permission checks), the single/batch apply, the zero-applied guards,
and the transactional commit. Errors are the raw thrown classes; the
route's catch block is applied by `changesPOST`. -/
def applyPhase (st : EngineState) (u : Nat) (d : DocumentRow) (req : ChangeRequest) :
    EngineState × Except ApiError ChangesResponse :=
  match req with
  | .single c =>
    if !validChangeStrings c then
      (st, .error .validation)
    else
      let updatedContent := replaceFirst d.content c.textToReplace c.newText
      if d.content == updatedContent then
        (st, .error .badRequest)
      else
        commitChanges st u d true updatedContent
          [⟨c.textToReplace, c.newText, jsIndexOf d.content c.textToReplace, true⟩]
  | .multiple cs =>
    if !cs.all validChangeStrings then
      (st, .error .validation)
    else if cs.isEmpty then
      (st, .error .badRequest)
    else
      let result := applyMultipleChanges d.content cs
      let appliedCount := (result.2.filter (·.applied)).length
      if appliedCount == 0 then
        (st, .error .badRequest)
      else
        commitChanges st u d false result.1 result.2

/-- The body of the route's `try` block (route.ts lines 171-366): the
access query, the two permission checks, then `applyPhase`. UUID and
request-shape validation happen before the `try` in the source and are
orthogonal to the modelled claims, so shapes are taken as already
detected. Error paths occur before any write in the source, so they
return the state unchanged. -/
def changesPOSTtry (st : EngineState) (u : Nat) (req : ChangeRequest) :
    EngineState × Except ApiError ChangesResponse :=
  match st.doc with
  | none => (st, .error .notFound)
  | some d =>
    if !(d.ownerId == u || d.isPublic ||
         st.collaborators.any (fun c => c.userId == u && c.isActive)) then
      (st, .error .notFound)
    else
      let permResult := permResultRows st u
      let isOwner := d.ownerId == u
      let isEditor := !permResult.isEmpty && headIsEditor permResult
      let isPublic := d.isPublic
      if !isOwner && !isEditor && !isPublic then
        (st, .error .forbidden)
      else if !permResult.isEmpty && !headIsEditor permResult then
        (st, .error .forbidden)
      else
        applyPhase st u d req

/-- The route's `try`/`catch` shape: a success passes through, a
thrown error is transformed by the catch block (`routeCatch`). -/
def catchWrap (r : EngineState × Except ApiError ChangesResponse) :
    EngineState × Except ApiError ChangesResponse :=
  match r with
  | (st', .ok v) => (st', .ok v)
  | (st', .error e) => (st', .error (routeCatch e))

/-- `POST /api/documents/[id]/changes` (route.ts lines 137-378): the
`try` body with the route's catch block applied to whatever it throws
(success responses pass through). -/
def changesPOST (st : EngineState) (u : Nat) (req : ChangeRequest) :
    EngineState × Except ApiError ChangesResponse :=
  catchWrap (changesPOSTtry st u req)

/-- The conjunction of the three authorization checks of the route:
the access query finds a row, the `!isOwner && !isEditor && !isPublic`
deny does not fire, and the lower-permission-collaborator deny does
not fire. `changesPOST` reaches `applyPhase` exactly when this is
`true` (and the document exists). -/
def authGatePasses (st : EngineState) (u : Nat) : Bool :=
  match st.doc with
  | none => false
  | some d =>
    (d.ownerId == u || d.isPublic ||
      st.collaborators.any (fun c => c.userId == u && c.isActive)) &&
    !(!(d.ownerId == u) &&
      !(!(permResultRows st u).isEmpty && headIsEditor (permResultRows st u)) &&
      !d.isPublic) &&
    !(!(permResultRows st u).isEmpty && !headIsEditor (permResultRows st u))

/-- The list of ops carried by a request (one for the single shape). -/
def reqOps : ChangeRequest → List SingleChangeRequest
  | .single c => [c]
  | .multiple cs => cs

/-- The revision counter of the engine state's document (0 when the
document is absent). -/
def docVersion (st : EngineState) : Nat :=
  match st.doc with
  | none => 0
  | some d => d.contentVersion

/-! ## Collaboration Hub server (`src/scripts/add-search-analytics.ts`,
the socket.io server part) -/

/-- Socket identifiers. -/
abbrev SocketId := Nat

/-- Document identifiers (keys of the `documentStates` map and of the
`documents` table). -/
abbrev DocId := Nat

/-- One entry of the in-memory `documentStates` map. -/
structure DocState where
  content : JsStr
  version : Nat
  users : List SocketId
  deriving DecidableEq, Repr

/-- A `document_collaborators` row as read by the join-time access
check (which tests only existence of an active row). -/
structure ServerCollabRow where
  docId : DocId
  userId : Nat
  isActive : Bool
  deriving DecidableEq, Repr

/-- The collaboration server's state: the `documents` table, the
collaborator table, the in-memory room registry, and the key set of
the `userStates` map. -/
structure ServerState where
  db : List (DocId × DocumentRow)
  dbCollabs : List ServerCollabRow
  documentStates : List (DocId × DocState)
  userStates : List SocketId
  deriving DecidableEq, Repr

/-- Messages the server emits. -/
inductive OutMsg where
  | userLeft (socketId : SocketId)
  | documentUpdated (userId : Nat) (socketId : SocketId) (newContent : JsStr) (version : Nat)
  deriving DecidableEq, Repr

/-- An emission: `socket.to(room).emit(...)` targets every member of
the document's room except the sender. -/
inductive Emit where
  | toRoomExcept (docId : DocId) (sender : SocketId) (msg : OutMsg)
  deriving DecidableEq, Repr

/-- Association-list lookup (the `Map.get` of the registry and the
keyed `SELECT`/`UPDATE` of the `documents` table). -/
def alookup {α : Type} : List (Nat × α) → Nat → Option α
  | [], _ => none
  | (k, v) :: rest, i => if k = i then some v else alookup rest i

/-- `Map.set` semantics: replace the value at an existing key in
place, otherwise append. -/
def aset {α : Type} : List (Nat × α) → Nat → α → List (Nat × α)
  | [], k, v => [(k, v)]
  | (k', v') :: rest, k, v =>
    if k' = k then (k, v) :: rest else (k', v') :: aset rest k v

/-- `getOrCreateDocumentState` (lines 124-133): the existing entry, or
the fresh `{content: "", version: 0, users: ∅}` default. -/
def getOrCreateDocumentState (m : List (DocId × DocState)) (d : DocId) : DocState :=
  (alookup m d).getD ⟨[], 0, []⟩

/-- The `join-document` access query (lines 186-198): owner, or
public, or an active collaborator row. -/
def joinAccessAllowed (st : ServerState) (d : DocId) (uid : Nat) : Bool :=
  match alookup st.db d with
  | none => false
  | some row =>
    row.ownerId == uid || row.isPublic ||
    st.dbCollabs.any (fun c => c.docId == d && c.userId == uid && c.isActive)

/-- The `document-change` handler (lines 318-358): run the `UPDATE`
against the `documents` table, overwrite the cached room state,
increment the cached version, and broadcast `document-updated` to the
room excluding the sender. The handler performs no access check and
never consults the roster. -/
def handleDocumentChange (st : ServerState) (sid : SocketId) (d : DocId)
    (uid : Nat) (newContent : JsStr) : ServerState × List Emit :=
  let db' := st.db.map (fun p =>
    if p.1 = d then
      (p.1, { p.2 with content := newContent, contentVersion := p.2.contentVersion + 1 })
    else p)
  let ds := getOrCreateDocumentState st.documentStates d
  let ds' : DocState := { ds with content := newContent, version := ds.version + 1 }
  ({ st with db := db', documentStates := aset st.documentStates d ds' },
   [.toRoomExcept d sid (.documentUpdated uid sid newContent ds'.version)])

/-- The server registers no `leave-document` listener (its
`io.on("connection")` block handles only `join-document`,
`cursor-update`, `typing-start`, `typing-stop`, `document-change` and
`disconnect`), so socket.io silently drops the message. -/
def handleLeaveDocument (st : ServerState) (_sid : SocketId) (_d : DocId) :
    ServerState × List Emit :=
  (st, [])

/-- The `disconnect` handler (lines 360-379): for every registry
entry whose roster contains the socket, delete the socket from the
roster and emit `user-left` to the room; then delete the socket's
`userStates` entry. No registry entry is ever removed. -/
def handleDisconnect (st : ServerState) (sid : SocketId) : ServerState × List Emit :=
  let pairs := st.documentStates.map (fun p =>
    if sid ∈ p.2.users then
      ((p.1, { p.2 with users := p.2.users.erase sid }),
       [Emit.toRoomExcept p.1 sid (.userLeft sid)])
    else (p, ([] : List Emit)))
  ({ st with
      documentStates := pairs.map Prod.fst
      userStates := st.userStates.filter (fun s => s ≠ sid) },
   (pairs.map Prod.snd).flatten)

/-! ## Collaboration client (`CollaborationManager` in
`src/lib/textDiff.ts` part 2 / `lib/collaboration.ts`) -/

/-- The state the client's document-update callback receives. -/
structure ClientDocState where
  content : JsStr
  version : Nat
  deriving DecidableEq, Repr

/-- An inbound `document-updated` broadcast. -/
structure DocumentUpdatedMsg where
  userId : Nat
  socketId : SocketId
  newContent : JsStr
  version : Nat
  deriving DecidableEq, Repr

/-- The client's `document-updated` listener (lines 472-493): when a
document-update callback is registered it is invoked with the
broadcast's content and version; there is no comparison against any
previously observed version. Returns the callback invocations the
message produces. -/
def clientHandleDocumentUpdated (callbackSet : Bool) (m : DocumentUpdatedMsg) :
    List ClientDocState :=
  if callbackSet then [⟨m.newContent, m.version⟩] else []

/-- The sequence of callback invocations a peer produces while
processing a stream of `document-updated` broadcasts. -/
def observeBroadcasts (callbackSet : Bool) (msgs : List DocumentUpdatedMsg) :
    List ClientDocState :=
  msgs.foldl (fun acc m => acc ++ clientHandleDocumentUpdated callbackSet m) []

/-! ## Concrete states used by witnesses and counterexamples -/

/-- UTF-8 byte length of one UTF-16 code unit of a well-formed string
(each half of a surrogate pair contributes 2, totalling the 4 bytes of
the astral code point). -/
def utf8UnitLen (u : Nat) : Nat :=
  if u < 0x80 then 1
  else if u < 0x800 then 2
  else if 0xd800 ≤ u ∧ u < 0xe000 then 2
  else 3

/-- UTF-8 byte length of a JavaScript string. -/
def utf8Len (s : JsStr) : Nat :=
  (s.map utf8UnitLen).sum

/-- A document `"Hello"` at revision 7 owned by principal 1, private,
with no collaborators and empty logs. -/
def stHello : EngineState :=
  ⟨some ⟨1, false, jstr (r"Hello"), 7⟩, [], [], []⟩

/-- A public document `"Hello"` at revision 7 owned by principal 1,
with an active `viewer` binding for principal 2. -/
def stPub : EngineState :=
  ⟨some ⟨1, true, jstr (r"Hello"), 7⟩, [⟨2, .viewer, true⟩], [], []⟩

/-- A hub with one private document (id 5, owner 1, body `"abc"`,
revision 3) whose room holds the single session 9, and no
collaborator rows. -/
def roomState1 : ServerState :=
  ⟨[(5, ⟨1, false, jstr (r"abc"), 3⟩)], [], [(5, ⟨jstr (r"abc"), 3, [9]⟩)], [9]⟩

end Sandstone

namespace Sandstone

/-! ## Helper lemmas -/

theorem isPre_exists : ∀ (p l : JsStr), isPre p l = true → ∃ t, l = p ++ t := by
  intro p
  induction p with
  | nil => intro l _; exact ⟨l, rfl⟩
  | cons a as ih =>
    intro l h
    cases l with
    | nil => simp [isPre] at h
    | cons b bs =>
      simp only [isPre, Bool.and_eq_true, decide_eq_true_eq] at h
      obtain ⟨t, ht⟩ := ih bs h.2
      exact ⟨t, by rw [h.1, ht]; rfl⟩

theorem isPre_append (p t : JsStr) : isPre p (p ++ t) = true := by
  induction p with
  | nil => rfl
  | cons a as ih => simp [isPre, ih]

theorem firstIdx_isPre_drop :
    ∀ (s pat : JsStr) (i : Nat), firstIdx s pat = some i → isPre pat (s.drop i) = true := by
  intro s
  induction s with
  | nil =>
    intro pat i h
    rw [firstIdx] at h
    by_cases hp : isPre pat [] = true
    · rw [if_pos hp] at h; cases h; simpa using hp
    · rw [if_neg hp] at h; cases h
  | cons a t ih =>
    intro pat i h
    rw [firstIdx] at h
    by_cases hp : isPre pat (a :: t) = true
    · rw [if_pos hp] at h; cases h; simpa using hp
    · rw [if_neg hp] at h
      simp only [Option.map_eq_some'] at h
      obtain ⟨j, hj, hij⟩ := h
      subst hij
      simpa using ih pat j hj

theorem firstIdx_decomp (s pat : JsStr) (i : Nat) (h : firstIdx s pat = some i) :
    s = s.take i ++ pat ++ s.drop (i + pat.length) := by
  obtain ⟨t, ht⟩ := isPre_exists pat (s.drop i) (firstIdx_isPre_drop s pat i h)
  have htail : s.drop (i + pat.length) = t := by
    have : (s.drop i).drop pat.length = t := by rw [ht, List.drop_left]
    rw [← this, List.drop_drop]
  calc s = s.take i ++ s.drop i := (List.take_append_drop i s).symm
    _ = s.take i ++ (pat ++ t) := by rw [ht]
    _ = s.take i ++ pat ++ s.drop (i + pat.length) := by rw [htail, List.append_assoc]

theorem replaceFirst_of_none (s pat rep : JsStr) (h : firstIdx s pat = none) :
    replaceFirst s pat rep = s := by
  simp [replaceFirst, h]

theorem replaceFirst_of_some (s pat rep : JsStr) (i : Nat) (h : firstIdx s pat = some i) :
    replaceFirst s pat rep =
      s.take i ++ getSubstitution (s.take i) pat (s.drop (i + pat.length)) rep ++
        s.drop (i + pat.length) := by
  simp [replaceFirst, h]

theorem replaceFirst_eq_self_iff (s pat rep : JsStr) (i : Nat)
    (h : firstIdx s pat = some i) :
    replaceFirst s pat rep = s ↔
      getSubstitution (s.take i) pat (s.drop (i + pat.length)) rep = pat := by
  rw [replaceFirst_of_some s pat rep i h]
  constructor
  · intro heq
    have hs := firstIdx_decomp s pat i h
    have h1 : s.take i ++
        (getSubstitution (s.take i) pat (s.drop (i + pat.length)) rep ++
          s.drop (i + pat.length)) =
        s.take i ++ (pat ++ s.drop (i + pat.length)) := by
      rw [← List.append_assoc, ← List.append_assoc]
      exact heq.trans hs
    exact List.append_cancel_right (List.append_cancel_left h1)
  · intro hrp
    rw [hrp]
    exact (firstIdx_decomp s pat i h).symm

theorem observeBroadcasts_aux (msgs : List DocumentUpdatedMsg) :
    ∀ acc : List ClientDocState,
      msgs.foldl (fun acc m => acc ++ clientHandleDocumentUpdated true m) acc =
        acc ++ msgs.map (fun m => ⟨m.newContent, m.version⟩) := by
  induction msgs with
  | nil => intro acc; simp
  | cons m rest ih =>
    intro acc
    simp only [List.foldl_cons, List.map_cons]
    rw [ih]
    simp [clientHandleDocumentUpdated]

theorem filter_orderedInsert (p : Int) (a : SingleChangeRequest × Int) :
    ∀ l : List (SingleChangeRequest × Int),
      (List.orderedInsert posDesc a l).filter (fun x => x.2 == p) =
        if a.2 == p then a :: l.filter (fun x => x.2 == p)
        else l.filter (fun x => x.2 == p) := by
  intro l
  induction l with
  | nil =>
    simp only [List.orderedInsert, List.filter]
    by_cases hq : (a.2 == p) = true <;> simp [hq]
  | cons b rest ih =>
    simp only [List.orderedInsert]
    by_cases hr : posDesc a b
    · rw [if_pos hr]
      by_cases hq : (a.2 == p) = true <;> simp [List.filter, hq]
    · rw [if_neg hr]
      have hlt : a.2 < b.2 := lt_of_not_le hr
      by_cases hq : (a.2 == p) = true
      · have hbp : (b.2 == p) = false := by
          have : a.2 = p := by simpa using hq
          simp only [beq_eq_false_iff_ne, ne_eq]
          omega
        simp only [List.filter_cons, hbp, if_pos hq, ih, hq, if_true]
        simp
      · have hq' : (a.2 == p) = false := by simpa using hq
        simp only [List.filter_cons, ih, hq', if_false]
        simp [hq']

theorem filter_sortedChanges (p : Int) :
    ∀ l : List (SingleChangeRequest × Int),
      (List.insertionSort posDesc l).filter (fun x => x.2 == p) =
        l.filter (fun x => x.2 == p) := by
  intro l
  induction l with
  | nil => rfl
  | cons a rest ih =>
    simp only [List.insertionSort, filter_orderedInsert, ih, List.filter_cons]

/-! ## Claim theorems -/

/-- C1. The spec guarantees that applying the ops returned by
`generateChangeRequests(oldText, newText)` to `oldText` left-to-right,
replacing the first occurrence of each `textToReplace`, yields
`newText`. The code violates this: for `oldText = "a b"` and
`newText = "a x b"` the word-level pass drops the tokens of the longer
side beyond the common length, returns the single op
`{textToReplace: "b", newText: "x", position: 2}`, and applying it
yields `"a x"`, not `"a x b"`. -/
theorem diff_roundtrip_fails_C1 :
    generateChangeRequests (jstr (r"a b")) (jstr (r"a x b")) =
      [⟨jstr (r"b"), jstr (r"x"), 2⟩] ∧
    applyOpsFirstOcc (jstr (r"a b"))
      (generateChangeRequests (jstr (r"a b")) (jstr (r"a x b"))) = jstr (r"a x") ∧
    jstr (r"a x") ≠ jstr (r"a x b") := by
  refine ⟨by decide, by decide, by decide⟩

/-- C2. Batch ops are ordered by their first-occurrence position in
the original body, descending, stably (ties keep input order): the
sorted list is `Sorted` for the descending relation and filtering by
any fixed position value returns the ops in input order. Moreover, on
body `"Hello world"` with the batch
`[Hello world→Hi universe, Hello→Hi, world→universe]`, the result is
`"Hi universe"`, `world` (position 6) and `Hello` (position 0) are
applied, and the `Hello world` op is marked not applied with
position −1. -/
theorem applyMultipleChanges_order_C2 :
    (∀ content changes, List.Sorted posDesc (sortedChanges content changes)) ∧
    (∀ content changes (p : Int),
      (sortedChanges content changes).filter (fun x => x.2 == p) =
        (changesWithPositions content changes).filter (fun x => x.2 == p)) ∧
    applyMultipleChanges (jstr (r"Hello world"))
        [⟨jstr (r"Hello world"), jstr (r"Hi universe")⟩,
         ⟨jstr (r"Hello"), jstr (r"Hi")⟩,
         ⟨jstr (r"world"), jstr (r"universe")⟩] =
      (jstr (r"Hi universe"),
       [⟨jstr (r"world"), jstr (r"universe"), 6, true⟩,
        ⟨jstr (r"Hello world"), jstr (r"Hi universe"), -1, false⟩,
        ⟨jstr (r"Hello"), jstr (r"Hi"), 0, true⟩]) := by
  refine ⟨fun content changes => List.sorted_insertionSort posDesc _,
          fun content changes p => filter_sortedChanges p _,
          by decide⟩

/-- C7 counterexample. The claim says a peer discards `documentUpdated`
broadcasts whose version is not strictly greater than the previously
observed one. Feeding the client's `document-updated` handler a
version-5 broadcast followed by a version-3 broadcast produces two
callback invocations: the stale version-3 broadcast is accepted, not
discarded, and its version is not strictly greater than 5. -/
theorem client_accepts_stale_C7_cex :
    observeBroadcasts true
        [⟨1, 2, jstr (r"x"), 5⟩, ⟨1, 2, jstr (r"y"), 3⟩] =
      [⟨jstr (r"x"), 5⟩, ⟨jstr (r"y"), 3⟩] ∧
    ¬ 5 < 3 := by
  refine ⟨by decide, by decide⟩

/-- C7 (amended). The client's `document-updated` handler forwards
every broadcast to the registered document-update callback regardless
of its version: no version comparison or stale-discard is performed. -/
theorem client_forwards_all_C7 :
    ∀ msgs : List DocumentUpdatedMsg,
      observeBroadcasts true msgs =
        msgs.map (fun m => ⟨m.newContent, m.version⟩) := by
  intro msgs
  rw [observeBroadcasts, observeBroadcasts_aux msgs []]
  rfl

/-- C8 counterexample. In a hub whose registry holds document 5 with
the single session 9: an explicit `leave-document` message leaves the
state untouched (the session stays in the roster and nothing is
emitted), and after a transport close the roster becomes empty but the
room's in-memory state is still present in the registry rather than
destroyed. -/
theorem hub_room_destroy_fails_C8_cex :
    handleLeaveDocument roomState1 9 5 = (roomState1, []) ∧
    9 ∈ (getOrCreateDocumentState roomState1.documentStates 5).users ∧
    (getOrCreateDocumentState (handleDisconnect roomState1 9).1.documentStates 5).users =
      [] ∧
    alookup (handleDisconnect roomState1 9).1.documentStates 5 =
      some ⟨jstr (r"abc"), 3, []⟩ := by
  refine ⟨by decide, by decide, by decide, by decide⟩

/-- C8 (amended). On transport close the hub removes the session from
the roster of every room containing it and emits `userLeft` to each
such room; the registry keeps exactly the same set of rooms (an empty
room is never destroyed); and an explicit `leave-document` message has
no effect at all, because the server registers no handler for it. -/
theorem hub_disconnect_C8 :
    ∀ (st : ServerState) (sid : SocketId),
      (handleDisconnect st sid).1.documentStates =
        st.documentStates.map (fun q =>
          if sid ∈ q.2.users then (q.1, { q.2 with users := q.2.users.erase sid }) else q) ∧
      (handleDisconnect st sid).1.documentStates.map Prod.fst =
        st.documentStates.map Prod.fst ∧
      (∀ q ∈ st.documentStates, sid ∈ q.2.users →
        Emit.toRoomExcept q.1 sid (.userLeft sid) ∈ (handleDisconnect st sid).2) ∧
      (∀ d, handleLeaveDocument st sid d = (st, [])) := by
  intro st sid
  have hmain : (handleDisconnect st sid).1.documentStates =
      st.documentStates.map (fun q =>
        if sid ∈ q.2.users then (q.1, { q.2 with users := q.2.users.erase sid }) else q) := by
    simp only [handleDisconnect, List.map_map]
    apply List.map_congr_left
    intro q _
    by_cases hq : sid ∈ q.2.users <;> simp [hq]
  refine ⟨hmain, ?_, ?_, fun d => rfl⟩
  · rw [hmain, List.map_map]
    apply List.map_congr_left
    intro q _
    by_cases hq : sid ∈ q.2.users <;> simp [hq]
  · intro q hqmem hquser
    simp only [handleDisconnect, List.map_map]
    rw [List.mem_flatten]
    refine ⟨[Emit.toRoomExcept q.1 sid (.userLeft sid)], ?_, by simp⟩
    rw [List.mem_map]
    exact ⟨q, hqmem, by simp [hquser]⟩

/-- C8 witness: the amended theorem applied to the concrete hub
`roomState1` with session 9. -/
theorem hub_disconnect_C8_witness :
    Emit.toRoomExcept 5 9 (OutMsg.userLeft 9) ∈ (handleDisconnect roomState1 9).2 ∧
    handleLeaveDocument roomState1 9 5 = (roomState1, []) :=
  ⟨(hub_disconnect_C8 roomState1 9).2.2.1 (5, ⟨jstr (r"abc"), 3, [9]⟩)
      (by decide) (by decide),
   (hub_disconnect_C8 roomState1 9).2.2.2 5⟩

theorem alookup_map_keyed {α : Type} (f : α → α) (d : Nat) :
    ∀ m : List (Nat × α),
      alookup (m.map (fun p => if p.1 = d then (p.1, f p.2) else p)) d =
        (alookup m d).map f := by
  intro m
  induction m with
  | nil => rfl
  | cons p rest ih =>
    obtain ⟨k, v⟩ := p
    by_cases hk : k = d
    · subst hk
      simp only [List.map_cons, ite_true, if_pos rfl]
      simp [alookup, ih]
    · simp only [List.map_cons]
      rw [if_neg (by simpa using hk)]
      simp [alookup, hk, ih]

theorem alookup_aset {α : Type} (k : Nat) (v : α) :
    ∀ m : List (Nat × α), alookup (aset m k v) k = some v := by
  intro m
  induction m with
  | nil => simp [aset, alookup]
  | cons p rest ih =>
    by_cases hk : p.1 = k
    · cases p; simp_all [aset, alookup]
    · cases p; simp_all [aset, alookup]

/-- C10. A `document-change` message writes the supplied content to
the database row, bumps both the persistent revision and the cached
room version, and broadcasts `document-updated` to the room excluding
the sender — with no hypothesis about the sender at all: the
conclusions hold in particular for a socket that is not in the
document's roster and whose principal fails the join-time access
check, because the handler never consults either. -/
theorem hub_unauthorized_write_C10 :
    ∀ (st : ServerState) (sid : SocketId) (d : DocId) (uid : Nat) (c : JsStr)
      (row : DocumentRow),
      alookup st.db d = some row →
      sid ∉ (getOrCreateDocumentState st.documentStates d).users →
      joinAccessAllowed st d uid = false →
      alookup (handleDocumentChange st sid d uid c).1.db d =
        some { row with content := c, contentVersion := row.contentVersion + 1 } ∧
      alookup (handleDocumentChange st sid d uid c).1.documentStates d =
        some { getOrCreateDocumentState st.documentStates d with
                content := c
                version := (getOrCreateDocumentState st.documentStates d).version + 1 } ∧
      (handleDocumentChange st sid d uid c).2 =
        [.toRoomExcept d sid (.documentUpdated uid sid c
          ((getOrCreateDocumentState st.documentStates d).version + 1))] := by
  intro st sid d uid c row hrow _hroster _haccess
  refine ⟨?_, ?_, rfl⟩
  · show alookup (st.db.map _) d = _
    rw [alookup_map_keyed
      (fun row => { row with content := c, contentVersion := row.contentVersion + 1 }) d st.db,
      hrow]
    rfl
  · exact alookup_aset d _ st.documentStates

/-- C10 witness: in `roomState1`, socket 42 (not in document 5's
roster) acting for principal 77 (owner is 1, the document is private,
there are no collaborator rows, so the join access check would deny)
still gets its content written, the revision bumped, and the update
broadcast. -/
theorem hub_unauthorized_write_C10_witness :
    alookup (handleDocumentChange roomState1 42 5 77 (jstr (r"pwn"))).1.db 5 =
      some ⟨1, false, jstr (r"pwn"), 4⟩ ∧
    alookup (handleDocumentChange roomState1 42 5 77 (jstr (r"pwn"))).1.documentStates 5 =
      some ⟨jstr (r"pwn"), 4, [9]⟩ ∧
    (handleDocumentChange roomState1 42 5 77 (jstr (r"pwn"))).2 =
      [.toRoomExcept 5 42 (.documentUpdated 77 42 (jstr (r"pwn")) 4)] :=
  hub_unauthorized_write_C10 roomState1 42 5 77 (jstr (r"pwn"))
    ⟨1, false, jstr (r"abc"), 3⟩ (by decide) (by decide) (by decide)

/-- C3. A change request by a principal whose first active
collaborator row on the target document carries permission `viewer` or
`commenter` is rejected with `ForbiddenError` (403) and the state is
unchanged — with no hypothesis on the document's visibility, so in
particular when it is public: the explicit binding overrides
public-writability. -/
theorem changesPOST_viewer_403_C3 :
    ∀ (st : EngineState) (u : Nat) (req : ChangeRequest) (d : DocumentRow)
      (c : CollaboratorRow),
      st.doc = some d →
      (permResultRows st u).head? = some c →
      (c.permissionLevel = .viewer ∨ c.permissionLevel = .commenter) →
      changesPOST st u req = (st, .error .forbidden) ∧ statusOf .forbidden = 403 := by
  intro st u req d c hdoc hhead hperm
  refine ⟨?_, rfl⟩
  have hmem : c ∈ permResultRows st u :=
    List.mem_of_mem_head? (by rw [hhead]; rfl)
  have hfil := List.mem_filter.mp hmem
  have hany : st.collaborators.any (fun x => x.userId == u && x.isActive) = true :=
    List.any_eq_true.mpr ⟨c, hfil.1, hfil.2⟩
  have hne : (permResultRows st u).isEmpty = false := by
    cases hp : permResultRows st u with
    | nil => rw [hp] at hhead; cases hhead
    | cons a l => simp [List.isEmpty]
  have hhie : headIsEditor (permResultRows st u) = false := by
    rcases hperm with h | h <;> simp [headIsEditor, hhead, h]
  have htry : changesPOSTtry st u req = (st, .error .forbidden) := by
    cases hown : (d.ownerId == u) <;> cases hpub : d.isPublic <;>
      simp [changesPOSTtry, hdoc, hany, hne, hhie, hown, hpub]
  simp [changesPOST, catchWrap, htry, routeCatch]

/-- C3 witness: principal 2, an active viewer on the public document
of `stPub`, is denied with 403 on a well-formed single change. -/
theorem changesPOST_viewer_403_C3_witness :
    changesPOST stPub 2 (.single ⟨jstr (r"Hello"), jstr (r"Hi")⟩) =
      (stPub, .error .forbidden) ∧ statusOf .forbidden = 403 :=
  changesPOST_viewer_403_C3 stPub 2 (.single ⟨jstr (r"Hello"), jstr (r"Hi")⟩)
    ⟨1, true, jstr (r"Hello"), 7⟩ ⟨2, .viewer, true⟩ rfl (by decide) (Or.inl rfl)

theorem changesPOST_gate (st : EngineState) (u : Nat) (d : DocumentRow)
    (req : ChangeRequest) (hdoc : st.doc = some d)
    (hg : authGatePasses st u = true) :
    changesPOST st u req = catchWrap (applyPhase st u d req) := by
  have htry : changesPOSTtry st u req = applyPhase st u d req := by
    simp only [authGatePasses, hdoc, Bool.and_eq_true, Bool.not_eq_true'] at hg
    obtain ⟨⟨hA, hB⟩, hC⟩ := hg
    simp only [changesPOSTtry, hdoc]
    rw [if_neg (by rw [hA]; decide), if_neg (by rw [hB]; decide),
      if_neg (by rw [hC]; decide)]
  simp only [changesPOST, htry]

theorem walkChanges_no_match (w : JsStr) :
    ∀ (l : List (SingleChangeRequest × Int)) (acc : List AppliedChange),
      (∀ cp ∈ l, firstIdx w cp.1.textToReplace = none) →
      walkChanges l (w, acc) =
        (w, acc ++ l.map (fun cp =>
          (⟨cp.1.textToReplace, cp.1.newText, -1, false⟩ : AppliedChange))) := by
  intro l
  induction l with
  | nil => intro acc _; simp [walkChanges]
  | cons cp rest ih =>
    intro acc hnone
    have hcp : firstIdx w cp.1.textToReplace = none :=
      hnone cp (List.mem_cons_self _ _)
    have hpos : jsIndexOf w cp.1.textToReplace = -1 := by simp [jsIndexOf, hcp]
    have hrest : ∀ q ∈ rest, firstIdx w q.1.textToReplace = none :=
      fun q hq => hnone q (List.mem_cons_of_mem _ hq)
    have step : walkChanges (cp :: rest) (w, acc) =
        walkChanges rest (w, acc ++ [⟨cp.1.textToReplace, cp.1.newText, -1, false⟩]) := by
      simp only [walkChanges, hpos]
      rw [if_neg (by decide)]
      rfl
    rw [step, ih _ hrest]
    simp

theorem countApplied_allFalse :
    ∀ l : List (SingleChangeRequest × Int),
      ((l.map (fun cp =>
        (⟨cp.1.textToReplace, cp.1.newText, -1, false⟩ : AppliedChange))).filter
          (·.applied)).length = 0 := by
  intro l
  induction l with
  | nil => rfl
  | cons cp rest ih => simpa [List.filter_cons] using ih

/-- C4 counterexample. The claim says every zero-match request fails
with ChangeNotFound (400). A zero-match single request with an empty
`newText` instead fails with 500: `validateString` rejects the empty
string (despite `minLength` 0), the thrown `ValidationError` is not in
the route's rethrow list, and `handleDatabaseError` turns it into
`InternalServerError` because its `code` is a number, not a PostgreSQL
string code. (No side effects, as the claim says.) -/
theorem zero_match_invalid_500_C4_cex :
    changesPOST stHello 1 (.single ⟨jstr (r"foo"), []⟩) =
      (stHello, .error .internal) ∧
    statusOf .internal = 500 ∧
    firstIdx (jstr (r"Hello")) (jstr (r"foo")) = none ∧
    (500 : Nat) ≠ 400 := by
  refine ⟨by decide, by decide, by decide, by decide⟩

/-- C4 (amended). For every authorized change request (either shape)
none of whose ops' target texts occur in the current body: there are
no side effects — the returned state is the input state, so the body,
the revision counter, the operation log and the analytics log are all
unchanged; when every op's strings pass the route's validators
(nonempty and at most 10^6 UTF-16 units) the failure is the
change-not-found `BadRequestError` (400); when some op's string fails
validation the failure is instead the 500 that `handleDatabaseError`
makes of the `ValidationError`. -/
theorem changesPOST_zero_match_C4 :
    ∀ (st : EngineState) (u : Nat) (req : ChangeRequest) (d : DocumentRow),
      st.doc = some d →
      authGatePasses st u = true →
      (∀ c ∈ reqOps req, firstIdx d.content c.textToReplace = none) →
      (changesPOST st u req).1 = st ∧
      ((reqOps req).all validChangeStrings = true →
        (changesPOST st u req).2 = .error .badRequest ∧ statusOf .badRequest = 400) ∧
      ((reqOps req).all validChangeStrings = false →
        (changesPOST st u req).2 = .error .internal ∧ statusOf .internal = 500) := by
  intro st u req d hdoc hg hnone
  have hgate := changesPOST_gate st u d req hdoc hg
  by_cases hval : (reqOps req).all validChangeStrings = true
  · have happly : applyPhase st u d req = (st, .error .badRequest) := by
      match req with
      | .single c =>
        have hc := hnone c (by simp [reqOps])
        have hc' : validChangeStrings c = true := by simpa [reqOps] using hval
        simp [applyPhase, hc', replaceFirst_of_none _ _ _ hc]
      | .multiple cs =>
        have hcs : cs.all validChangeStrings = true := by simpa [reqOps] using hval
        by_cases hemp : cs.isEmpty
        · simp [applyPhase, hcs, hemp]
        · have hall : ∀ cp ∈ sortedChanges d.content cs,
              firstIdx d.content cp.1.textToReplace = none := by
            intro cp hcp
            have hmem : cp ∈ changesWithPositions d.content cs :=
              ((List.perm_insertionSort posDesc _).mem_iff).mp hcp
            obtain ⟨c, hc, hceq⟩ := List.mem_map.mp hmem
            rw [← hceq]
            exact hnone c (by simpa [reqOps] using hc)
          have happ := walkChanges_no_match d.content (sortedChanges d.content cs) [] hall
          simp [applyPhase, hcs, hemp, applyMultipleChanges, happ, countApplied_allFalse]
    rw [hgate, happly]
    refine ⟨rfl, fun _ => ⟨rfl, rfl⟩, fun hf => ?_⟩
    rw [hval] at hf
    cases hf
  · have hval' : (reqOps req).all validChangeStrings = false := by
      simpa using hval
    have happly : applyPhase st u d req = (st, .error .validation) := by
      match req with
      | .single c =>
        have hc' : validChangeStrings c = false := by simpa [reqOps] using hval'
        simp [applyPhase, hc']
      | .multiple cs =>
        have hcs : cs.all validChangeStrings = false := by simpa [reqOps] using hval'
        simp [applyPhase, hcs]
    rw [hgate, happly]
    refine ⟨rfl, fun ht => ?_, fun _ => ⟨rfl, rfl⟩⟩
    rw [hval'] at ht
    cases ht

/-- C4 witness: the owner of `stHello` posts a valid single change
whose target `"foo"` does not occur in `"Hello"`: state unchanged,
error 400. -/
theorem changesPOST_zero_match_C4_witness :
    (changesPOST stHello 1 (.single ⟨jstr (r"foo"), jstr (r"bar")⟩)).1 = stHello ∧
    (changesPOST stHello 1 (.single ⟨jstr (r"foo"), jstr (r"bar")⟩)).2 =
      .error .badRequest ∧
    statusOf .badRequest = 400 :=
  let h := changesPOST_zero_match_C4 stHello 1 (.single ⟨jstr (r"foo"), jstr (r"bar")⟩)
    ⟨1, false, jstr (r"Hello"), 7⟩ rfl (by decide) (by decide)
  ⟨h.1, (h.2.1 (by decide)).1, (h.2.1 (by decide)).2⟩

/-- C6. For every state, principal and request: when the request is
accepted (the route returns a success response, which happens exactly
when at least one op applied) the document's revision counter is
exactly one larger than before, however many ops the batch applied;
when the request is rejected the state — and with it the revision
counter — is unchanged. -/
theorem changesPOST_revision_C6 :
    ∀ (st : EngineState) (u : Nat) (req : ChangeRequest),
      ((changesPOST st u req).2.isOk = true →
        docVersion (changesPOST st u req).1 = docVersion st + 1 ∧
        ∃ resp, (changesPOST st u req).2 = .ok resp ∧ 1 ≤ resp.appliedChanges) ∧
      ((changesPOST st u req).2.isOk = false → (changesPOST st u req).1 = st) := by
  intro st u req
  cases hdoc : st.doc with
  | none =>
    have htry : changesPOSTtry st u req = (st, .error .notFound) := by
      simp only [changesPOSTtry, hdoc]
    have hres : changesPOST st u req = (st, .error .notFound) := by
      simp [changesPOST, htry, catchWrap, routeCatch]
    rw [hres]
    exact ⟨(fun hok => nomatch hok), fun _ => rfl⟩
  | some d =>
    have hv : docVersion st = d.contentVersion := by simp [docVersion, hdoc]
    by_cases h1 : (!(d.ownerId == u || d.isPublic ||
        st.collaborators.any (fun c => c.userId == u && c.isActive))) = true
    · have htry : changesPOSTtry st u req = (st, .error .notFound) := by
        simp only [changesPOSTtry, hdoc]; rw [if_pos h1]
      have hres : changesPOST st u req = (st, .error .notFound) := by
        simp [changesPOST, htry, catchWrap, routeCatch]
      rw [hres]
      exact ⟨(fun hok => nomatch hok), fun _ => rfl⟩
    · by_cases h2 : ((!(d.ownerId == u)) &&
          (!((!(permResultRows st u).isEmpty) && headIsEditor (permResultRows st u))) &&
          (!d.isPublic)) = true
      · have htry : changesPOSTtry st u req = (st, .error .forbidden) := by
          simp only [changesPOSTtry, hdoc]; rw [if_neg h1, if_pos h2]
        have hres : changesPOST st u req = (st, .error .forbidden) := by
          simp [changesPOST, htry, catchWrap, routeCatch]
        rw [hres]
        exact ⟨(fun hok => nomatch hok), fun _ => rfl⟩
      · by_cases h3 : ((!(permResultRows st u).isEmpty) &&
            (!headIsEditor (permResultRows st u))) = true
        · have htry : changesPOSTtry st u req = (st, .error .forbidden) := by
            simp only [changesPOSTtry, hdoc]; rw [if_neg h1, if_neg h2, if_pos h3]
          have hres : changesPOST st u req = (st, .error .forbidden) := by
            simp [changesPOST, htry, catchWrap, routeCatch]
          rw [hres]
          exact ⟨(fun hok => nomatch hok), fun _ => rfl⟩
        · have htry : changesPOSTtry st u req = applyPhase st u d req := by
            simp only [changesPOSTtry, hdoc]; rw [if_neg h1, if_neg h2, if_neg h3]
          have hres : changesPOST st u req = catchWrap (applyPhase st u d req) := by
            simp only [changesPOST, htry]
          rw [hres, hv]
          cases req with
          | single c =>
            by_cases hvc : (!validChangeStrings c) = true
            · have hres2 : applyPhase st u d (.single c) = (st, .error .validation) := by
                simp only [applyPhase]; rw [if_pos hvc]
              rw [hres2]
              exact ⟨(fun hok => nomatch hok), fun _ => rfl⟩
            · by_cases heq :
                  (d.content == replaceFirst d.content c.textToReplace c.newText) = true
              · have hres2 : applyPhase st u d (.single c) = (st, .error .badRequest) := by
                  simp only [applyPhase]; rw [if_neg hvc, if_pos heq]
                rw [hres2]
                exact ⟨(fun hok => nomatch hok), fun _ => rfl⟩
              · have hres2 : applyPhase st u d (.single c) =
                    commitChanges st u d true
                      (replaceFirst d.content c.textToReplace c.newText)
                      [⟨c.textToReplace, c.newText,
                        jsIndexOf d.content c.textToReplace, true⟩] := by
                  simp only [applyPhase]; rw [if_neg hvc, if_neg heq]
                have hIsOk : (catchWrap (commitChanges st u d true
                    (replaceFirst d.content c.textToReplace c.newText)
                    [⟨c.textToReplace, c.newText,
                      jsIndexOf d.content c.textToReplace, true⟩])).2.isOk = true := rfl
                rw [hres2]
                refine ⟨fun _ => ⟨?_, ?_⟩, fun hko => ?_⟩
                · simp [catchWrap, commitChanges, docVersion]
                · refine ⟨_, rfl, ?_⟩
                  simp [catchWrap, commitChanges]
                · rw [hko] at hIsOk
                  cases hIsOk
          | multiple cs =>
            by_cases hvc : (!cs.all validChangeStrings) = true
            · have hres2 : applyPhase st u d (.multiple cs) = (st, .error .validation) := by
                simp only [applyPhase]; rw [if_pos hvc]
              rw [hres2]
              exact ⟨(fun hok => nomatch hok), fun _ => rfl⟩
            · by_cases hemp : cs.isEmpty = true
              · have hres2 : applyPhase st u d (.multiple cs) =
                    (st, .error .badRequest) := by
                  simp only [applyPhase]; rw [if_neg hvc, if_pos hemp]
                rw [hres2]
                exact ⟨(fun hok => nomatch hok), fun _ => rfl⟩
              · by_cases hzero :
                    ((((applyMultipleChanges d.content cs).2.filter (·.applied)).length)
                      == 0) = true
                · have hres2 : applyPhase st u d (.multiple cs) =
                      (st, .error .badRequest) := by
                    simp only [applyPhase]; rw [if_neg hvc, if_neg hemp, if_pos hzero]
                  rw [hres2]
                  exact ⟨(fun hok => nomatch hok), fun _ => rfl⟩
                · have hres2 : applyPhase st u d (.multiple cs) =
                      commitChanges st u d false (applyMultipleChanges d.content cs).1
                        (applyMultipleChanges d.content cs).2 := by
                    simp only [applyPhase]; rw [if_neg hvc, if_neg hemp, if_neg hzero]
                  have hpos :
                      1 ≤ ((applyMultipleChanges d.content cs).2.filter
                        (·.applied)).length :=
                    Nat.one_le_iff_ne_zero.mpr (by simpa using hzero)
                  have hIsOk : (catchWrap (commitChanges st u d false
                      (applyMultipleChanges d.content cs).1
                      (applyMultipleChanges d.content cs).2)).2.isOk = true := rfl
                  rw [hres2]
                  refine ⟨fun _ => ⟨?_, ?_⟩, fun hko => ?_⟩
                  · simp [catchWrap, commitChanges, docVersion]
                  · refine ⟨_, rfl, ?_⟩
                    simpa [catchWrap, commitChanges] using hpos
                  · rw [hko] at hIsOk
                    cases hIsOk

/-- C5 counterexample. The claim says the single shape fails with
ChangeNotFound exactly when `textToReplace` has no occurrence. On body
`"Hello"`, the single request `{textToReplace: "Hello", newText:
"Hello"}` fails with the 400 ChangeNotFound error even though
`"Hello"` occurs at position 0 — the code tests `content ===
content.replace(...)`, which also fires when the replacement is a
no-op — while the equivalent batch of length one succeeds. The same
happens for `newText` `"$&"` (code units `[36, 38]`), which
`String.prototype.replace` expands to the match itself. -/
theorem single_identity_C5_cex :
    changesPOST stHello 1 (.single ⟨jstr (r"Hello"), jstr (r"Hello")⟩) =
      (stHello, .error .badRequest) ∧
    firstIdx (jstr (r"Hello")) (jstr (r"Hello")) = some 0 ∧
    ((changesPOST stHello 1
      (.multiple [⟨jstr (r"Hello"), jstr (r"Hello")⟩])).2).isOk = true ∧
    changesPOST stHello 1 (.single ⟨jstr (r"Hello"), [36, 38]⟩) =
      (stHello, .error .badRequest) := by
  refine ⟨by decide, by decide, by decide, by decide⟩

/-- C5 (amended). For an authorized single-shape request whose strings
pass the route's validators: it fails with ChangeNotFound (400)
exactly when `textToReplace` has no occurrence in the current body OR
the `GetSubstitution` expansion of `newText` at the first occurrence
(with `$$`, `$&`, dollar-grave and dollar-apostrophe substituted)
equals the replaced text — replacing the first occurrence then leaves
the body unchanged; otherwise the op is applied with position equal to
the first occurrence. In the expansion-equals-match case a batch of
length one would instead succeed, so the single shape is not
semantically identical to it. (A request with an empty or oversized
string fails 500 instead, per C4.) -/
theorem changesPOST_single_C5 :
    ∀ (st : EngineState) (u : Nat) (c : SingleChangeRequest) (d : DocumentRow),
      st.doc = some d →
      authGatePasses st u = true →
      validChangeStrings c = true →
      (((changesPOST st u (.single c)).2 = .error .badRequest) ↔
        (firstIdx d.content c.textToReplace = none ∨
         ∃ i, firstIdx d.content c.textToReplace = some i ∧
           getSubstitution (d.content.take i) c.textToReplace
             (d.content.drop (i + c.textToReplace.length)) c.newText =
             c.textToReplace)) ∧
      (∀ i, firstIdx d.content c.textToReplace = some i →
        getSubstitution (d.content.take i) c.textToReplace
          (d.content.drop (i + c.textToReplace.length)) c.newText ≠
          c.textToReplace →
        ∃ resp, (changesPOST st u (.single c)).2 = .ok resp ∧
          resp.perOp = [⟨c.textToReplace, c.newText, (i : Int), true⟩] ∧
          resp.appliedChanges = 1) ∧
      (∀ i, firstIdx d.content c.textToReplace = some i →
        getSubstitution (d.content.take i) c.textToReplace
          (d.content.drop (i + c.textToReplace.length)) c.newText =
          c.textToReplace →
        ((changesPOST st u (.multiple [c])).2).isOk = true) := by
  intro st u c d hdoc hg hval
  have hgate := changesPOST_gate st u d (.single c) hdoc hg
  have hvneg : ¬((!validChangeStrings c) = true) := by rw [hval]; decide
  refine ⟨?_, ?_, ?_⟩
  · rw [hgate]
    by_cases heq : (d.content == replaceFirst d.content c.textToReplace c.newText) = true
    · have heq' : replaceFirst d.content c.textToReplace c.newText = d.content :=
        (beq_iff_eq.mp heq).symm
      have hrhs : firstIdx d.content c.textToReplace = none ∨
          ∃ i, firstIdx d.content c.textToReplace = some i ∧
            getSubstitution (d.content.take i) c.textToReplace
              (d.content.drop (i + c.textToReplace.length)) c.newText =
              c.textToReplace := by
        cases hfi : firstIdx d.content c.textToReplace with
        | none => exact Or.inl rfl
        | some i =>
          exact Or.inr ⟨i, rfl,
            (replaceFirst_eq_self_iff d.content c.textToReplace c.newText i hfi).mp heq'⟩
      have hres2 : applyPhase st u d (.single c) = (st, .error .badRequest) := by
        simp only [applyPhase]; rw [if_neg hvneg, if_pos heq]
      rw [hres2]
      exact iff_of_true rfl hrhs
    · have heq' : replaceFirst d.content c.textToReplace c.newText ≠ d.content := by
        intro habs
        exact heq (beq_iff_eq.mpr habs.symm)
      have hrhs : ¬(firstIdx d.content c.textToReplace = none ∨
          ∃ i, firstIdx d.content c.textToReplace = some i ∧
            getSubstitution (d.content.take i) c.textToReplace
              (d.content.drop (i + c.textToReplace.length)) c.newText =
              c.textToReplace) := by
        rintro (hnone | ⟨i, hi, hexp⟩)
        · exact heq' (replaceFirst_of_none _ _ _ hnone)
        · exact heq'
            ((replaceFirst_eq_self_iff d.content c.textToReplace c.newText i hi).mpr hexp)
      have hres2 : applyPhase st u d (.single c) =
          commitChanges st u d true
            (replaceFirst d.content c.textToReplace c.newText)
            [⟨c.textToReplace, c.newText, jsIndexOf d.content c.textToReplace, true⟩] := by
        simp only [applyPhase]; rw [if_neg hvneg, if_neg heq]
      rw [hres2]
      exact iff_of_false (fun habs => nomatch habs) hrhs
  · intro i hi hne
    have hji : jsIndexOf d.content c.textToReplace = (i : Int) := by simp [jsIndexOf, hi]
    have heq' : replaceFirst d.content c.textToReplace c.newText ≠ d.content := by
      intro habs
      exact hne
        ((replaceFirst_eq_self_iff d.content c.textToReplace c.newText i hi).mp habs)
    have heq : ¬(d.content == replaceFirst d.content c.textToReplace c.newText) = true :=
      fun hb => heq' (beq_iff_eq.mp hb).symm
    have hres2 : applyPhase st u d (.single c) =
        commitChanges st u d true
          (replaceFirst d.content c.textToReplace c.newText)
          [⟨c.textToReplace, c.newText, (i : Int), true⟩] := by
      simp only [applyPhase]; rw [if_neg hvneg, if_neg heq, hji]
    refine ⟨⟨replaceFirst d.content c.textToReplace c.newText, true, 1, 1,
      [⟨c.textToReplace, c.newText, (i : Int), true⟩], d.contentVersion + 1⟩, ?_, rfl, rfl⟩
    rw [hgate, hres2]
    rfl
  · intro i hi _hid
    have hji : jsIndexOf d.content c.textToReplace = (i : Int) := by simp [jsIndexOf, hi]
    have hne1 : ((i : Int) ≠ -1) := by omega
    have hsort : sortedChanges d.content [c] = [(c, (i : Int))] := by
      simp [sortedChanges, changesWithPositions, List.insertionSort,
        List.orderedInsert, hji]
    have happ : applyMultipleChanges d.content [c] =
        (replaceFirst d.content c.textToReplace c.newText,
         [⟨c.textToReplace, c.newText, (i : Int), true⟩]) := by
      simp only [applyMultipleChanges, hsort, walkChanges, hji]
      rw [if_pos hne1]
      simp [decide_eq_true hne1]
    have hcount :
        (((applyMultipleChanges d.content [c]).2.filter (·.applied)).length == 0) = false := by
      rw [happ]
      rfl
    have hall : ([c].all validChangeStrings) = true := by simp [List.all, hval]
    have hres2 : applyPhase st u d (.multiple [c]) =
        commitChanges st u d false (applyMultipleChanges d.content [c]).1
          (applyMultipleChanges d.content [c]).2 := by
      simp only [applyPhase]
      rw [if_neg (by rw [hall]; decide), if_neg (fun habs => nomatch habs),
        if_neg (by rw [hcount]; decide)]
    rw [changesPOST_gate st u d (.multiple [c]) hdoc hg, hres2]
    rfl

/-- C5 witness: on `stHello` (owner 1, body `"Hello"`): replacing
`"Hello"` by `"Hi"` (no dollar-pattern, expansion is `"Hi"` itself)
succeeds with position 0 and one applied op, and the failure
characterization holds for the no-occurrence request. -/
theorem changesPOST_single_C5_witness :
    (∃ resp, (changesPOST stHello 1 (.single ⟨jstr (r"Hello"), jstr (r"Hi")⟩)).2 =
        .ok resp ∧
      resp.perOp = [⟨jstr (r"Hello"), jstr (r"Hi"), (0 : Int), true⟩] ∧
      resp.appliedChanges = 1) ∧
    ((changesPOST stHello 1 (.single ⟨jstr (r"foo"), jstr (r"bar")⟩)).2 =
        .error .badRequest ↔
      (firstIdx (jstr (r"Hello")) (jstr (r"foo")) = none ∨
       ∃ i, firstIdx (jstr (r"Hello")) (jstr (r"foo")) = some i ∧
         getSubstitution ((jstr (r"Hello")).take i) (jstr (r"foo"))
           ((jstr (r"Hello")).drop (i + (jstr (r"foo")).length)) (jstr (r"bar")) =
           jstr (r"foo"))) :=
  ⟨(changesPOST_single_C5 stHello 1 ⟨jstr (r"Hello"), jstr (r"Hi")⟩
      ⟨1, false, jstr (r"Hello"), 7⟩ rfl (by decide) (by decide)).2.1 0
      (by decide) (by decide),
   (changesPOST_single_C5 stHello 1 ⟨jstr (r"foo"), jstr (r"bar")⟩
      ⟨1, false, jstr (r"Hello"), 7⟩ rfl (by decide) (by decide)).1⟩

/-- C6 witness: an accepted single change on `stHello` bumps the
revision from 7 to 8 with one applied op, and a rejected request (a
viewer on `stPub`) leaves the state unchanged. -/
theorem changesPOST_revision_C6_witness :
    (docVersion (changesPOST stHello 1 (.single ⟨jstr (r"Hello"), jstr (r"Hi")⟩)).1 =
      docVersion stHello + 1 ∧
     ∃ resp, (changesPOST stHello 1 (.single ⟨jstr (r"Hello"), jstr (r"Hi")⟩)).2 =
        .ok resp ∧ 1 ≤ resp.appliedChanges) ∧
    (changesPOST stPub 2 (.single ⟨jstr (r"Hello"), jstr (r"Hi")⟩)).1 = stPub :=
  ⟨(changesPOST_revision_C6 stHello 1 (.single ⟨jstr (r"Hello"), jstr (r"Hi")⟩)).1
      (by decide),
   (changesPOST_revision_C6 stPub 2 (.single ⟨jstr (r"Hello"), jstr (r"Hi")⟩)).2
      (by decide)⟩

theorem splitWsAux_flatten :
    ∀ (fuel : Nat) (l : JsStr), l.length < fuel → (splitWsAux fuel l).flatten = l := by
  intro fuel
  induction fuel with
  | zero => intro l hl; cases hl
  | succ fuel ih =>
    intro l hl
    by_cases hd : l.dropWhile (fun u => !isWs u) = []
    · have hsplit : l.takeWhile (fun u => !isWs u) ++ l.dropWhile (fun u => !isWs u) = l :=
        List.takeWhile_append_dropWhile _ _
      rw [hd, List.append_nil] at hsplit
      simp [splitWsAux, hd, hsplit]
    · obtain ⟨a, as, hc⟩ : ∃ a as, l.dropWhile (fun u => !isWs u) = a :: as := by
        cases hx : l.dropWhile (fun u => !isWs u) with
        | nil => exact absurd hx hd
        | cons x xs => exact ⟨x, xs, rfl⟩
      have ha : isWs a = true := by
        have := dropWhile_head_false (fun u => !isWs u) l a as hc
        simpa using this
      have hlen : ((l.dropWhile (fun u => !isWs u)).dropWhile isWs).length < fuel := by
        rw [hc, List.dropWhile_cons_of_pos ha]
        have h1 : (as.dropWhile isWs).length ≤ as.length := length_dropWhile_le _ _
        have h2 : (a :: as).length ≤ l.length := by
          rw [← hc]; exact length_dropWhile_le _ _
        simp only [List.length_cons] at h2
        omega
      have hrec := ih ((l.dropWhile (fun u => !isWs u)).dropWhile isWs) hlen
      have hsp2 : (l.dropWhile (fun u => !isWs u)).takeWhile isWs ++
          (l.dropWhile (fun u => !isWs u)).dropWhile isWs =
          l.dropWhile (fun u => !isWs u) :=
        List.takeWhile_append_dropWhile _ _
      have hsplit : l.takeWhile (fun u => !isWs u) ++ l.dropWhile (fun u => !isWs u) = l :=
        List.takeWhile_append_dropWhile _ _
      simp only [splitWsAux]
      rw [if_neg hd]
      simp only [List.flatten_cons, hrec]
      rw [hsp2]
      exact hsplit

theorem splitWs_flatten (l : JsStr) : (splitWs l).flatten = l :=
  splitWsAux_flatten (l.length + 1) l (Nat.lt_succ_self _)

theorem commonPrefixLen_le_left {α : Type} [DecidableEq α] :
    ∀ (l m : List α), commonPrefixLen l m ≤ l.length := by
  intro l
  induction l with
  | nil => intro m; simp [commonPrefixLen]
  | cons a as ih =>
    intro m
    cases m with
    | nil => simp [commonPrefixLen]
    | cons b bs =>
      simp only [commonPrefixLen]
      by_cases hab : a = b
      · rw [if_pos hab]
        simpa using ih bs
      · rw [if_neg hab]
        simp

theorem commonPrefixLen_le_right {α : Type} [DecidableEq α] :
    ∀ (l m : List α), commonPrefixLen l m ≤ m.length := by
  intro l
  induction l with
  | nil => intro m; simp [commonPrefixLen]
  | cons a as ih =>
    intro m
    cases m with
    | nil => simp [commonPrefixLen]
    | cons b bs =>
      simp only [commonPrefixLen]
      by_cases hab : a = b
      · rw [if_pos hab]
        simpa using ih bs
      · rw [if_neg hab]
        simp

theorem endScan_le {α : Type} [DecidableEq α] (o n : List α) (s : Nat) :
    ∀ e, endScan o n s e ≤ e := by
  intro e
  induction e with
  | zero => exact Nat.le_refl 0
  | succ e ih =>
    simp only [endScan]
    by_cases hc : s ≤ e ∧ o.get? e = n.get? e
    · rw [if_pos hc]
      exact Nat.le_succ_of_le ih
    · rw [if_neg hc]

theorem le_endScan {α : Type} [DecidableEq α] (o n : List α) (s : Nat) :
    ∀ e, s ≤ e → s ≤ endScan o n s e := by
  intro e
  induction e with
  | zero => intro hs; simpa [endScan] using hs
  | succ e ih =>
    intro hs
    simp only [endScan]
    by_cases hc : s ≤ e ∧ o.get? e = n.get? e
    · rw [if_pos hc]
      exact ih hc.1
    · rw [if_neg hc]
      exact hs

theorem take_take_drop_decomp {α : Type} (l : List α) (s e : Nat) (hse : s ≤ e) :
    l = l.take s ++ (l.drop s).take (e - s) ++ l.drop e := by
  have h1 : l = l.take s ++ l.drop s := (List.take_append_drop s l).symm
  have h2 : l.drop s = (l.drop s).take (e - s) ++ (l.drop s).drop (e - s) :=
    (List.take_append_drop (e - s) (l.drop s)).symm
  have h3 : (l.drop s).drop (e - s) = l.drop e := by
    rw [List.drop_drop]
    congr 1
    omega
  rw [List.append_assoc]
  rw [h3] at h2
  rw [← h2]
  exact h1

theorem findWordLevelChanges_span (oldText newText : JsStr) (op : TextChange)
    (hop : op ∈ findWordLevelChanges oldText newText) :
    ∃ pre suf, oldText = pre ++ op.textToReplace ++ suf ∧
      (pre.length : Int) = op.position := by
  simp only [findWordLevelChanges] at hop
  split at hop
  · rw [List.mem_singleton] at hop
    subst hop
    dsimp only
    have hse : commonPrefixLen (splitWs oldText) (splitWs newText) ≤
        endScan (splitWs oldText) (splitWs newText)
          (commonPrefixLen (splitWs oldText) (splitWs newText))
          (min (splitWs oldText).length (splitWs newText).length) :=
      le_endScan _ _ _ _
        (le_min (commonPrefixLen_le_left _ _) (commonPrefixLen_le_right _ _))
    refine ⟨((splitWs oldText).take
        (commonPrefixLen (splitWs oldText) (splitWs newText))).flatten,
      ((splitWs oldText).drop
        (endScan (splitWs oldText) (splitWs newText)
          (commonPrefixLen (splitWs oldText) (splitWs newText))
          (min (splitWs oldText).length (splitWs newText).length))).flatten,
      ?_, ?_⟩
    · have hdec := take_take_drop_decomp (splitWs oldText)
        (commonPrefixLen (splitWs oldText) (splitWs newText))
        (endScan (splitWs oldText) (splitWs newText)
          (commonPrefixLen (splitWs oldText) (splitWs newText))
          (min (splitWs oldText).length (splitWs newText).length)) hse
      calc oldText = (splitWs oldText).flatten := (splitWs_flatten oldText).symm
        _ = _ := by
            rw [← List.flatten_append, ← List.flatten_append, ← hdec]
    · rw [List.length_flatten]
  · exact absurd hop (List.not_mem_nil op)

theorem findTextChanges_span (oldText newText : JsStr) (op : TextChange)
    (hop : op ∈ findTextChanges oldText newText) :
    ∃ pre suf, oldText = pre ++ op.textToReplace ++ suf ∧
      (pre.length : Int) = op.position := by
  simp only [findTextChanges] at hop
  split at hop
  · exact absurd hop (List.not_mem_nil op)
  · split at hop
    · rw [List.mem_singleton] at hop
      subst hop
      dsimp only
      have hse : commonPrefixLen oldText newText ≤
          endScan oldText newText (commonPrefixLen oldText newText)
            (min oldText.length newText.length) :=
        le_endScan _ _ _ _
          (le_min (commonPrefixLen_le_left _ _) (commonPrefixLen_le_right _ _))
      refine ⟨oldText.take (commonPrefixLen oldText newText),
        oldText.drop (endScan oldText newText (commonPrefixLen oldText newText)
          (min oldText.length newText.length)), ?_, ?_⟩
      · exact take_take_drop_decomp oldText _ _ hse
      · rw [List.length_take]
        congr 1
        exact Nat.min_eq_left (commonPrefixLen_le_left _ _)
    · exact absurd hop (List.not_mem_nil op)

/-- C9 (amended). For every pair of input texts, the `position` field
of every op returned by the diff utility is the UTF-16 code-unit
offset of the replaced span within `oldText` — `oldText` decomposes as
`pre ++ textToReplace ++ suf` with `pre.length` (code units) equal to
`position` — not a UTF-8 byte offset. -/
theorem diff_position_unit_offset_C9 :
    ∀ (oldText newText : JsStr) (op : TextChange),
      op ∈ generateChangeRequests oldText newText →
      ∃ pre suf, oldText = pre ++ op.textToReplace ++ suf ∧
        (pre.length : Int) = op.position := by
  intro oldText newText op hop
  simp only [generateChangeRequests] at hop
  split at hop
  · exact absurd hop (List.not_mem_nil op)
  · split at hop
    · exact findWordLevelChanges_span oldText newText op hop
    · split at hop
      · exact findTextChanges_span oldText newText op hop
      · rw [List.mem_singleton] at hop
        subst hop
        exact ⟨[], [], by simp, rfl⟩

/-- C9 witness: the amended theorem applied to the op returned for
`("I love reading books", "I love reading emails")`, whose position 15
is the code-unit offset of `"books"`. -/
theorem diff_position_unit_offset_C9_witness :
    ∃ pre suf, jstr (r"I love reading books") =
        pre ++ (jstr (r"books")) ++ suf ∧
      (pre.length : Int) = (15 : Int) :=
  diff_position_unit_offset_C9 (jstr (r"I love reading books"))
    (jstr (r"I love reading emails"))
    ⟨jstr (r"books"), jstr (r"emails"), 15⟩ (by decide)

/-- C9 counterexample. For `oldText = "é a"` (code units
`[233, 32, 97]`, UTF-8 bytes `C3 A9 20 61`) and `newText = "é b"`, the
returned op replaces the span `"a"`, whose unique occurrence starts at
code-unit offset 2 but at UTF-8 byte offset 3; the op's position is 2,
the code-unit offset, not the byte offset. -/
theorem diff_position_not_bytes_C9_cex :
    generateChangeRequests [233, 32, 97] [233, 32, 98] =
      [⟨[97], [98], 2⟩] ∧
    firstIdx [233, 32, 97] [97] = some 2 ∧
    (∀ i, i < 3 → isPre [97] (List.drop i [233, 32, 97]) = true → i = 2) ∧
    utf8Len (List.take 2 [233, 32, 97]) = 3 ∧
    (2 : Int) ≠ (3 : Int) := by
  refine ⟨by decide, by decide, by decide, by decide, by decide⟩

end Sandstone
